import Mathlib

/-!
Shallow embedding of `src/server.py` (SprintTap): a websocket server that
coordinates timed multiplayer "tap" rounds per room.  Times and JSON numbers
are modelled as rationals; Python dicts as insertion-ordered association
lists; the awaited sends / broadcasts / `asyncio.create_task` calls as an
explicit list of emitted events; Python exceptions as `Except`.
-/

/-- A JSON value as produced by `json.loads`. -/
inductive JVal : Type
  | jnull : JVal
  | jbool : Bool → JVal
  | jnum : ℚ → JVal
  | jstr : String → JVal
  | jarr : List JVal → JVal
  | jobj : List (String × JVal) → JVal

/-- Python exceptions that the handler code can raise. -/
inductive PyExc : Type
  | jsonDecodeError : PyExc
  | attributeError : PyExc
  | valueError : PyExc
  | typeError : PyExc
deriving DecidableEq

/-- One stored result record: `{"reported": ..., "validated": ..., "offset": ...}`
(server.py line 110). -/
structure RRes : Type where
  reported : Int
  validated : Nat
  offset : ℚ
deriving DecidableEq

/-- One ranking entry `{"user": u, "validated": ..., "reported": ...}`
(server.py line 144). -/
structure RankEntry : Type where
  user : String
  validated : Nat
  reported : Int
deriving DecidableEq

/-- Per-room state (server.py line 52): clients are modelled by their key set
in insertion order (the websocket handles themselves are transport, out of
scope); `results` is the insertion-ordered dict of submitted results. -/
structure Room : Type where
  clients : List String
  results : List (String × RRes)
  start_time : Option ℚ
  duration : ℚ
  last_ranking : Option (List RankEntry)
deriving DecidableEq

/-- The room a first reference creates:
`{"clients": {}, "results": {}, "start_time": None, "duration": 15}` (line 52). -/
def defaultRoom : Room :=
  { clients := [], results := [], start_time := none, duration := 15, last_ranking := none }

/-- Outbound JSON messages the server produces. -/
inductive OutMsg : Type
  | presence : List String → OutMsg
  | timesyncResp : ℚ → OutMsg
  | roomInfo : List String → Option ℚ → ℚ → OutMsg
  | start : ℚ → ℚ → OutMsg
  | interimResult : String → Nat → OutMsg
  | roundEnd : List RankEntry → OutMsg
  | errMsg : String → OutMsg
deriving DecidableEq

/-- Observable effects of one handler step: a direct `websocket.send_text` to
the handling client, a `broadcast(room_id, ...)` to the room, or
`asyncio.create_task(end_round_after(room_id, when))`. -/
inductive Event : Type
  | sendTo : String → OutMsg → Event
  | broadcastEv : OutMsg → Event
  | scheduleEnd : ℚ → Event
deriving DecidableEq

/-- `d.get(k)` on a Python dict decoded from JSON. -/
def jget (fields : List (String × JVal)) (key : String) : Option JVal :=
  (fields.find? fun p => p.1 == key).map Prod.snd

/-- `d.get(k, default)`. -/
def jgetD (fields : List (String × JVal)) (key : String) (dflt : JVal) : JVal :=
  (jget fields key).getD dflt

/-- `d[k] = v` on a Python dict: an existing key keeps its position, a new key
is appended (insertion order). -/
def dictSet {α : Type} (l : List (String × α)) (k : String) (v : α) : List (String × α) :=
  if l.any fun p => p.1 == k then
    l.map fun p => if p.1 == k then (k, v) else p
  else
    l ++ [(k, v)]

/-- `k in d` on a Python dict. -/
def dictMem {α : Type} (l : List (String × α)) (k : String) : Bool :=
  l.any fun p => p.1 == k

/-- `d.get(k)` / `d[k]` lookup. -/
def dictLookup {α : Type} (l : List (String × α)) (k : String) : Option α :=
  (l.find? fun p => p.1 == k).map Prod.snd

/-- Truncation toward zero, as Python `int()` applied to a float. -/
def pyTrunc (q : ℚ) : Int :=
  if 0 ≤ q then ⌊q⌋ else ⌈q⌉

/-- Python `int(v)` on a JSON-decoded value.  Numbers truncate toward zero and
booleans coerce; `None`, lists and dicts raise `TypeError`.  (Numeric strings,
which Python would parse, are not modelled: no claim depends on them, so a
string raises the `ValueError` that a non-numeric string raises.) -/
def pyInt : JVal → Except PyExc Int
  | .jnum q => .ok (pyTrunc q)
  | .jbool b => .ok (if b then 1 else 0)
  | .jstr _ => .error .valueError
  | .jnull => .error .typeError
  | .jarr _ => .error .typeError
  | .jobj _ => .error .typeError

/-- Python `float(v)` on a JSON-decoded value; same conventions as `pyInt`. -/
def pyFloat : JVal → Except PyExc ℚ
  | .jnum q => .ok q
  | .jbool b => .ok (if b then 1 else 0)
  | .jstr _ => .error .valueError
  | .jnull => .error .typeError
  | .jarr _ => .error .typeError
  | .jobj _ => .error .typeError

/-- `float(t_local)` applied to each element of the `timestamps` list
(server.py lines 105-106).  The Python loop converts and tests one element at
a time, but `valid` is only stored after the whole loop, so converting all
elements first is observably identical: any conversion failure aborts the
message with no state change. -/
def convFloats : List JVal → Except PyExc (List ℚ)
  | [] => .ok []
  | v :: vs =>
    match pyFloat v with
    | .error e => .error e
    | .ok q =>
      match convFloats vs with
      | .error e => .error e
      | .ok qs => .ok (q :: qs)

/-- Iterating `for t_local in timestamps`: only JSON arrays are modelled as
iterable.  (Python would iterate a string per character and a dict per key;
no claim depends on those, so they raise here like the other non-sequences.) -/
def convSeq : JVal → Except PyExc (List ℚ)
  | .jarr vs => convFloats vs
  | _ => .error .typeError

/-- Python `typ == "s"` where `typ = msg.get("type")`: only the exact string
compares equal; `None` and non-strings compare unequal. -/
def typIs (typ : Option JVal) (s : String) : Bool :=
  match typ with
  | some (.jstr s2) => s2 == s
  | _ => false

/-- The validation loop (server.py lines 102-108): count the timestamps whose
offset-corrected server time lies in `[start, start + duration]`, both ends
inclusive. -/
def countValid (start dur off : ℚ) (ts : List ℚ) : Nat :=
  ts.countP fun t_local =>
    decide (start ≤ t_local + off) && decide (t_local + off ≤ start + dur)

/-- The key ordering of `sorted(..., key=lambda x: (-x["validated"], -x["reported"]))`
(server.py line 145): validated descending, then reported descending. -/
def rankRel (a b : RankEntry) : Prop :=
  b.validated < a.validated ∨ (a.validated = b.validated ∧ b.reported ≤ a.reported)

instance : DecidableRel rankRel := fun a b => by
  unfold rankRel
  infer_instance

instance : IsTotal RankEntry rankRel := by
  constructor
  intro a b
  unfold rankRel
  omega

instance : IsTrans RankEntry rankRel := by
  constructor
  intro a b c hab hbc
  unfold rankRel at *
  omega

/-- `{"user": u, "validated": r["validated"], "reported": r["reported"]}`. -/
def toRankEntry (p : String × RRes) : RankEntry :=
  { user := p.1, validated := p.2.validated, reported := p.2.reported }

/-- Python's `sorted` is a stable sort by the key; modelled by the stable
`List.insertionSort` under the corresponding total preorder `rankRel`. -/
def rankOf (results : List (String × RRes)) : List RankEntry :=
  List.insertionSort rankRel (results.map toRankEntry)

/-- `{"reported": 0, "validated": 0, "offset": 0.0}` (server.py line 141). -/
def zeroRes : RRes := { reported := 0, validated := 0, offset := 0 }

/-- Server.py lines 139-141: give every client without a results entry a zero
entry, appending in client order. -/
def synthMissing (clients : List String) (results : List (String × RRes)) :
    List (String × RRes) :=
  clients.foldl (fun rs u => if dictMem rs u then rs else rs ++ [(u, zeroRes)]) results

/-- The body of `finalize_round` for a room that exists (server.py lines
137-151): synthesize zero results, build the ranking, store it, broadcast
`round_end`, then clear `start_time` and `results`.  Note the only guard in
the source is the room-existence check; there is no check that the round is
still active. -/
def finalize_room (room : Room) : Room × List Event :=
  let results := synthMissing room.clients room.results
  let ranking := rankOf results
  ({ room with last_ranking := some ranking, start_time := none, results := [] },
   [Event.broadcastEv (OutMsg.roundEnd ranking)])

/-- `finalize_round(room_id)` over the global room registry (server.py lines
132-151): a missing room is a no-op. -/
def finalize_round (rooms : List (String × Room)) (rid : String) :
    List (String × Room) × List Event :=
  match dictLookup rooms rid with
  | none => (rooms, [])
  | some room =>
    let fr := finalize_room room
    (dictSet rooms rid fr.1, fr.2)

/-- `end_round_after(room_id, when)` (server.py lines 125-129): sleep until
`when` (a negative wait clamps to zero) and then call `finalize_round`.  The
sleep is pure scheduling, so the state transition is `finalize_round`. -/
def end_round_after (rooms : List (String × Room)) (rid : String) :
    List (String × Room) × List Event :=
  finalize_round rooms rid

/-- Server.py lines 98-115 after the field conversions succeeded: count the
in-window timestamps, store the record under the sender, broadcast a partial
result, and finalize early when every client now has a result. -/
def resultOutcome (room : Room) (username : String) (start : ℚ) (client_count : Int)
    (client_offset : ℚ) (ts : List ℚ) : Room × List Event :=
  let valid := countValid start room.duration client_offset ts
  let room2 := { room with
    results := dictSet room.results username
      { reported := client_count, validated := valid, offset := client_offset } }
  let evs := [Event.broadcastEv (OutMsg.interimResult username valid)]
  if room2.results.length == room2.clients.length then
    let fr := finalize_room room2
    (fr.1, evs ++ fr.2)
  else
    (room2, evs)

/-- The `"result"` branch of the message loop (server.py lines 90-115): with
no active round, reply `error` to the sender only and continue; otherwise
convert the fields (`count` defaults to `0`, `offset` to `0.0`, `timestamps`
to `[]`) and run `resultOutcome`.  Every conversion happens before any state
change, so an exception leaves the room untouched. -/
def handle_result (room : Room) (username : String) (fields : List (String × JVal)) :
    Except PyExc (Room × List Event) :=
  match room.start_time with
  | none => .ok (room, [Event.sendTo username (OutMsg.errMsg "no active round")])
  | some start =>
    match pyInt (jgetD fields "count" (JVal.jnum 0)) with
    | .error e => .error e
    | .ok client_count =>
      match pyFloat (jgetD fields "offset" (JVal.jnum 0)) with
      | .error e => .error e
      | .ok client_offset =>
        match convSeq (jgetD fields "timestamps" (JVal.jarr [])) with
        | .error e => .error e
        | .ok ts => .ok (resultOutcome room username start client_count client_offset ts)

/-- One iteration of the `while True` receive loop (server.py lines 60-116):
`json.loads` on the raw text (`none` models an undecodable payload and raises),
`msg.get("type")` (raising `AttributeError` when the decoded value is not a
dict), then the `type` dispatch; unrecognized types are ignored.  `t` is the
value `now()` returns during this iteration. -/
def handle_message (t : ℚ) (room : Room) (username : String) (inbound : Option JVal) :
    Except PyExc (Room × List Event) :=
  match inbound with
  | none => .error .jsonDecodeError
  | some (.jobj fields) =>
    let typ := jget fields "type"
    if typIs typ "timesync" then
      .ok (room, [Event.sendTo username (OutMsg.timesyncResp t)])
    else if typIs typ "join" then
      .ok (room, [Event.sendTo username
        (OutMsg.roomInfo room.clients room.start_time room.duration)])
    else if typIs typ "request_start" then
      let start_time := t + 5
      let room2 := { room with start_time := some start_time, results := [] }
      .ok (room2, [Event.broadcastEv (OutMsg.start start_time room.duration),
                   Event.scheduleEnd (start_time + room.duration + 2)])
    else if typIs typ "result" then
      handle_result room username fields
    else
      .ok (room, [])
  | some _ => .error .attributeError

/-- Connection open (server.py lines 50-57): register the client (an existing
username keeps its key position, its websocket handle being replaced) and
broadcast presence. -/
def handle_connect (room : Room) (username : String) : Room × List Event :=
  let clients2 := if room.clients.any fun u => u == username then room.clients
                  else room.clients ++ [username]
  ({ room with clients := clients2 },
   [Event.broadcastEv (OutMsg.presence clients2)])

/-- The `WebSocketDisconnect` handler (server.py lines 118-122): pop the
client from `clients` and `results`, then broadcast presence. -/
def handle_disconnect (room : Room) (username : String) : Room × List Event :=
  let room2 := { room with
    clients := room.clients.filter fun u => u != username,
    results := room.results.filter fun p => p.1 != username }
  (room2, [Event.broadcastEv (OutMsg.presence room2.clients)])

/-- One inbound item on a client's channel: a received text frame (already
passed through `json.loads`, `none` when undecodable) or the transport
reporting disconnection. -/
inductive ClientInput : Type
  | recv : Option JVal → ClientInput
  | disconnect : ClientInput

/-- How the per-client loop of `ws_room` ended (or did not). -/
inductive LoopStatus : Type
  | running : LoopStatus
  | disconnected : LoopStatus
  | crashed : PyExc → LoopStatus
deriving DecidableEq

/-- The `while True` loop of `ws_room` with its `except WebSocketDisconnect`
handler (server.py lines 59-122), run over a finite schedule of inputs, each
paired with the server time at which it is processed.  Only
`WebSocketDisconnect` is caught: any other exception escapes the handler with
no cleanup, modelled as `crashed` (the exception raises before the failing
message emits any event, which matches every handler path).  An exhausted
schedule leaves the loop `running`. -/
def client_loop (room : Room) (username : String) :
    List (ℚ × ClientInput) → Room × List Event × LoopStatus
  | [] => (room, [], LoopStatus.running)
  | (_, ClientInput.disconnect) :: _ =>
    let fr := handle_disconnect room username
    (fr.1, fr.2, LoopStatus.disconnected)
  | (t, ClientInput.recv v) :: rest =>
    match handle_message t room username v with
    | .error e => (room, [], LoopStatus.crashed e)
    | .ok (room2, evs) =>
      let fr := client_loop room2 username rest
      (fr.1, evs ++ fr.2.1, fr.2.2)

/-- The implicit round window end `end = start + room["duration"]`
(server.py line 104). -/
def windowEnd (room : Room) : Option ℚ :=
  room.start_time.map fun s => s + room.duration

/-- The usernames currently holding a results entry. -/
def resKeys (room : Room) : List String :=
  room.results.map Prod.fst

/-- The round-state part of the per-room invariant: member and result keys
are duplicate-free and every result entry belongs to a current member. -/
def InvC4 (room : Room) : Prop :=
  room.clients.Nodup ∧ (resKeys room).Nodup ∧ ∀ u ∈ resKeys room, u ∈ room.clients

instance (room : Room) : Decidable (InvC4 room) := by
  unfold InvC4
  infer_instance

lemma dictLookup_cons_pos {α : Type} (p : String × α) (l : List (String × α)) (k : String)
    (hp : (p.1 == k) = true) : dictLookup (p :: l) k = some p.2 := by
  simp only [dictLookup, List.find?_cons, hp]
  rfl

lemma dictLookup_cons_neg {α : Type} (p : String × α) (l : List (String × α)) (k : String)
    (hp : (p.1 == k) = false) : dictLookup (p :: l) k = dictLookup l k := by
  simp only [dictLookup, List.find?_cons, hp]

lemma dictMem_eq_isSome {α : Type} (l : List (String × α)) (k : String) :
    dictMem l k = (dictLookup l k).isSome := by
  induction l with
  | nil => rfl
  | cons p rest ih =>
    have hm : dictMem (p :: rest) k = ((p.1 == k) || dictMem rest k) := rfl
    cases hp : (p.1 == k) with
    | true =>
      rw [hm, hp, dictLookup_cons_pos _ _ _ hp]
      rfl
    | false =>
      rw [hm, hp, dictLookup_cons_neg _ _ _ hp, Bool.false_or]
      exact ih

lemma dictLookup_mem {α : Type} {l : List (String × α)} {k : String} {v : α}
    (h : dictLookup l k = some v) : (k, v) ∈ l := by
  induction l with
  | nil => cases h
  | cons p rest ih =>
    cases hp : (p.1 == k) with
    | true =>
      rw [dictLookup_cons_pos _ _ _ hp] at h
      have hk : p.1 = k := eq_of_beq hp
      have hv : p.2 = v := by cases h; rfl
      have : p = (k, v) := by
        cases p
        simp_all
      rw [← this]
      exact List.mem_cons_self _ _
    | false =>
      rw [dictLookup_cons_neg _ _ _ hp] at h
      exact List.mem_cons_of_mem _ (ih h)

lemma dictLookup_append_left {α : Type} (l m : List (String × α)) (k : String) (v : α)
    (h : dictLookup l k = some v) : dictLookup (l ++ m) k = some v := by
  induction l with
  | nil => cases h
  | cons p rest ih =>
    cases hp : (p.1 == k) with
    | true =>
      rw [dictLookup_cons_pos _ _ _ hp] at h
      rw [List.cons_append, dictLookup_cons_pos _ _ _ hp]
      exact h
    | false =>
      rw [dictLookup_cons_neg _ _ _ hp] at h
      rw [List.cons_append, dictLookup_cons_neg _ _ _ hp]
      exact ih h

lemma dictLookup_append_right {α : Type} (l m : List (String × α)) (k : String)
    (h : dictLookup l k = none) : dictLookup (l ++ m) k = dictLookup m k := by
  induction l with
  | nil => rfl
  | cons p rest ih =>
    cases hp : (p.1 == k) with
    | true => rw [dictLookup_cons_pos _ _ _ hp] at h; cases h
    | false =>
      rw [dictLookup_cons_neg _ _ _ hp] at h
      rw [List.cons_append, dictLookup_cons_neg _ _ _ hp]
      exact ih h

lemma dictLookup_single_self {α : Type} (k : String) (v : α) :
    dictLookup [(k, v)] k = some v := by
  apply dictLookup_cons_pos
  simp

lemma dictLookup_single_ne {α : Type} (k k2 : String) (v : α) (h : ¬k2 = k) :
    dictLookup [(k2, v)] k = none := by
  rw [dictLookup_cons_neg]
  · rfl
  · simp [h]

lemma dictLookup_eq_none_of_any_eq_false {α : Type} {l : List (String × α)} {k : String}
    (h : (l.any fun p => p.1 == k) = false) : dictLookup l k = none := by
  have h2 : dictMem l k = false := h
  rw [dictMem_eq_isSome] at h2
  cases hl : dictLookup l k with
  | none => rfl
  | some v => rw [hl] at h2; cases h2

lemma dictLookup_dictSet_self {α : Type} (l : List (String × α)) (k : String) (v : α) :
    dictLookup (dictSet l k v) k = some v := by
  unfold dictSet
  by_cases h : (l.any fun p => p.1 == k) = true
  · rw [if_pos h]
    induction l with
    | nil => cases h
    | cons p rest ih =>
      rw [List.map_cons]
      by_cases hp : (p.1 == k) = true
      · rw [if_pos hp]
        apply dictLookup_cons_pos
        simp
      · have hpf : (p.1 == k) = false := by
          rw [← Bool.not_eq_true]
          exact hp
        have hr : (rest.any fun p => p.1 == k) = true := by
          have h2 := h
          rw [List.any_cons, hpf, Bool.false_or] at h2
          exact h2
        rw [if_neg hp, dictLookup_cons_neg _ _ _ hpf]
        exact ih hr
  · rw [if_neg h]
    rw [Bool.not_eq_true] at h
    rw [dictLookup_append_right _ _ _ (dictLookup_eq_none_of_any_eq_false h)]
    exact dictLookup_single_self k v

lemma dictKeys_dictSet {α : Type} (l : List (String × α)) (k : String) (v : α) :
    (dictSet l k v).map Prod.fst =
      if (l.any fun p => p.1 == k) = true then l.map Prod.fst
      else l.map Prod.fst ++ [k] := by
  unfold dictSet
  by_cases h : (l.any fun p => p.1 == k) = true
  · rw [if_pos h, if_pos h, List.map_map]
    apply List.map_congr_left
    intro p _
    by_cases hp : (p.1 == k) = true
    · have hk : p.1 = k := eq_of_beq hp
      rw [Function.comp_apply, if_pos hp, hk]
    · rw [Function.comp_apply, if_neg hp]
  · rw [if_neg h, if_neg h, List.map_append]
    rfl

lemma not_mem_keys_of_any_eq_false {α : Type} (l : List (String × α)) (k : String)
    (h : (l.any fun p => p.1 == k) = false) : k ∉ l.map Prod.fst := by
  intro hmem
  rcases List.mem_map.mp hmem with ⟨p, hp, hk⟩
  have := List.any_eq_false.mp h p hp
  rw [hk] at this
  simp at this

lemma synthMissing_cons (c : String) (cs : List String) (rs : List (String × RRes)) :
    synthMissing (c :: cs) rs =
      synthMissing cs (if dictMem rs c then rs else rs ++ [(c, zeroRes)]) := rfl

lemma synthMissing_preserves {cs : List String} {rs : List (String × RRes)} {u : String}
    {v : RRes} (h : dictLookup rs u = some v) :
    dictLookup (synthMissing cs rs) u = some v := by
  induction cs generalizing rs with
  | nil => exact h
  | cons c cs ih =>
    rw [synthMissing_cons]
    apply ih
    by_cases hm : dictMem rs c = true
    · rw [if_pos hm]
      exact h
    · rw [if_neg hm]
      exact dictLookup_append_left _ _ _ _ h

lemma synthMissing_zero {cs : List String} {rs : List (String × RRes)} {u : String}
    (hu : u ∈ cs) (h : dictLookup rs u = none) :
    dictLookup (synthMissing cs rs) u = some zeroRes := by
  induction cs generalizing rs with
  | nil => cases hu
  | cons c cs ih =>
    rw [synthMissing_cons]
    by_cases hc : c = u
    · subst hc
      have hm : dictMem rs c = false := by
        rw [dictMem_eq_isSome, h]
        rfl
      rw [if_neg (by rw [hm]; exact Bool.false_ne_true)]
      apply synthMissing_preserves
      rw [dictLookup_append_right _ _ _ h]
      exact dictLookup_single_self c zeroRes
    · have hu2 : u ∈ cs := by
        cases hu with
        | head => exact absurd rfl hc
        | tail _ h2 => exact h2
      apply ih hu2
      by_cases hm : dictMem rs c = true
      · rw [if_pos hm]
        exact h
      · rw [if_neg hm]
        rw [dictLookup_append_right _ _ _ h]
        exact dictLookup_single_ne _ _ _ hc

lemma invc4_length (room : Room) (h : InvC4 room) :
    room.results.length ≤ room.clients.length := by
  obtain ⟨hc, hk, hsub⟩ := h
  have h1 : room.results.length = (resKeys room).length := by
    unfold resKeys
    rw [List.length_map]
  have h2 : (resKeys room).toFinset.card = (resKeys room).length :=
    List.toFinset_card_of_nodup hk
  have h3 : (resKeys room).toFinset ⊆ room.clients.toFinset := by
    intro x hx
    rw [List.mem_toFinset] at hx ⊢
    exact hsub x hx
  have h4 := Finset.card_le_card h3
  have h5 : room.clients.toFinset.card ≤ room.clients.length := List.toFinset_card_le _
  omega

lemma convFloats_length {vs : List JVal} {ts : List ℚ}
    (h : convFloats vs = .ok ts) : ts.length = vs.length := by
  induction vs generalizing ts with
  | nil => cases h; rfl
  | cons v rest ih =>
    unfold convFloats at h
    cases hv : pyFloat v with
    | error e => rw [hv] at h; cases h
    | ok q =>
      rw [hv] at h
      cases hr : convFloats rest with
      | error e => rw [hr] at h; cases h
      | ok qs =>
        rw [hr] at h
        cases h
        simp [ih hr]

lemma handle_message_typed (t : ℚ) (room : Room) (username : String)
    (fields : List (String × JVal)) (s : String)
    (hty : jget fields "type" = some (JVal.jstr s)) :
    handle_message t room username (some (JVal.jobj fields)) =
      (if s == "timesync" then
        .ok (room, [Event.sendTo username (OutMsg.timesyncResp t)])
      else if s == "join" then
        .ok (room, [Event.sendTo username
          (OutMsg.roomInfo room.clients room.start_time room.duration)])
      else if s == "request_start" then
        .ok ({ room with start_time := some (t + 5), results := [] },
          [Event.broadcastEv (OutMsg.start (t + 5) room.duration),
           Event.scheduleEnd (t + 5 + room.duration + 2)])
      else if s == "result" then
        handle_result room username fields
      else
        .ok (room, [])) := by
  simp only [handle_message, hty, typIs]

lemma handle_result_ok (room : Room) (username : String) (fields : List (String × JVal))
    (start : ℚ) (n : Int) (qoff : ℚ) (ts : List ℚ)
    (hs : room.start_time = some start)
    (h1 : pyInt (jgetD fields "count" (JVal.jnum 0)) = Except.ok n)
    (h2 : pyFloat (jgetD fields "offset" (JVal.jnum 0)) = Except.ok qoff)
    (h3 : convSeq (jgetD fields "timestamps" (JVal.jarr [])) = Except.ok ts) :
    handle_result room username fields =
      Except.ok (resultOutcome room username start n qoff ts) := by
  simp only [handle_result, hs, h1, h2, h3]

lemma handle_result_no_round (room : Room) (username : String)
    (fields : List (String × JVal)) (hs : room.start_time = none) :
    handle_result room username fields =
      Except.ok (room, [Event.sendTo username (OutMsg.errMsg "no active round")]) := by
  simp only [handle_result, hs]

lemma resultOutcome_head (room : Room) (username : String) (start : ℚ) (n : Int)
    (qoff : ℚ) (ts : List ℚ) :
    (resultOutcome room username start n qoff ts).2.head? =
      some (Event.broadcastEv
        (OutMsg.interimResult username (countValid start room.duration qoff ts))) := by
  simp only [resultOutcome]
  split <;> rfl

/-- C5: `request_start` sets `start_time` to `now() + 5.0` (so the effective
round window ends at `start_time + duration`), clears `results`, broadcasts
the `start` message carrying the start time and duration, and schedules
exactly one deferred finalization at `start_time + duration + 2.0`; the
outcome is the same whatever the prior `start_time` was, so an already
active round is overwritten (last-writer-wins, no queuing). -/
theorem C5_request_start (t : ℚ) (room : Room) (username : String)
    (fields : List (String × JVal))
    (hty : jget fields "type" = some (JVal.jstr "request_start")) :
    handle_message t room username (some (JVal.jobj fields)) =
      Except.ok ({ room with start_time := some (t + 5), results := [] },
        [Event.broadcastEv (OutMsg.start (t + 5) room.duration),
         Event.scheduleEnd (t + 5 + room.duration + 2)]) ∧
    windowEnd { room with start_time := some (t + 5), results := [] } =
      some (t + 5 + room.duration) := by
  refine ⟨?_, rfl⟩
  rw [handle_message_typed t room username fields _ hty]
  rfl

/-- A room with an active round and a pending result, used to witness C5. -/
def c5Room : Room :=
  { clients := ["alice", "bob"], results := [("alice", ⟨3, 2, 0⟩)],
    start_time := some 50, duration := 15, last_ranking := none }

/-- Witness for C5 at a room whose round is already active: the new round
overwrites it. -/
theorem C5_request_start_witness :
    handle_message 100 c5Room "alice" (some (JVal.jobj [("type", JVal.jstr "request_start")])) =
      Except.ok ({ c5Room with start_time := some ((100 : ℚ) + 5), results := [] },
        [Event.broadcastEv (OutMsg.start ((100 : ℚ) + 5) c5Room.duration),
         Event.scheduleEnd ((100 : ℚ) + 5 + c5Room.duration + 2)]) ∧
    windowEnd { c5Room with start_time := some ((100 : ℚ) + 5), results := [] } =
      some ((100 : ℚ) + 5 + c5Room.duration) :=
  C5_request_start 100 c5Room "alice" [("type", JVal.jstr "request_start")] rfl

/-- C7: a result submission while no round is active is answered with the
`error` message to the submitting client only; the room state is returned
unchanged and no broadcast or scheduling event is emitted. -/
theorem C7_no_active_round (t : ℚ) (room : Room) (username : String)
    (fields : List (String × JVal))
    (hty : jget fields "type" = some (JVal.jstr "result"))
    (hs : room.start_time = none) :
    handle_message t room username (some (JVal.jobj fields)) =
      Except.ok (room, [Event.sendTo username (OutMsg.errMsg "no active round")]) := by
  rw [handle_message_typed t room username fields _ hty]
  exact handle_result_no_round room username fields hs

/-- An empty-round room used to witness C7. -/
def c7Room : Room :=
  { clients := ["alice"], results := [], start_time := none, duration := 15,
    last_ranking := none }

/-- Witness for C7: a concrete submission against a room with no active
round. -/
theorem C7_no_active_round_witness :
    handle_message 0 c7Room "alice"
        (some (JVal.jobj [("type", JVal.jstr "result"), ("count", JVal.jnum 4),
          ("offset", JVal.jnum 1), ("timestamps", JVal.jarr [JVal.jnum 3])])) =
      Except.ok (c7Room, [Event.sendTo "alice" (OutMsg.errMsg "no active round")]) :=
  C7_no_active_round 0 c7Room "alice"
    [("type", JVal.jstr "result"), ("count", JVal.jnum 4),
     ("offset", JVal.jnum 1), ("timestamps", JVal.jarr [JVal.jnum 3])] rfl rfl

/-- C2: with an active round whose window is `[start, start + duration]`, a
result submission stores (and broadcasts) a validated count equal to the
number of submitted local timestamps `x` with
`start ≤ x + offset ≤ start + duration`, both bounds inclusive: a corrected
time landing exactly on either bound counts, anything strictly outside does
not. -/
theorem C2_validated_count (t : ℚ) (room : Room) (username : String)
    (fields : List (String × JVal)) (start : ℚ) (tsj : List JVal)
    (n : Int) (qoff : ℚ) (ts : List ℚ)
    (hty : jget fields "type" = some (JVal.jstr "result"))
    (hs : room.start_time = some start)
    (h1 : pyInt (jgetD fields "count" (JVal.jnum 0)) = Except.ok n)
    (h2 : pyFloat (jgetD fields "offset" (JVal.jnum 0)) = Except.ok qoff)
    (h4 : jgetD fields "timestamps" (JVal.jarr []) = JVal.jarr tsj)
    (h3 : convFloats tsj = Except.ok ts) :
    handle_message t room username (some (JVal.jobj fields)) =
      Except.ok (resultOutcome room username start n qoff ts) ∧
    countValid start room.duration qoff ts =
      (ts.filter fun x =>
        decide (start ≤ x + qoff ∧ x + qoff ≤ start + room.duration)).length ∧
    (resultOutcome room username start n qoff ts).2.head? =
      some (Event.broadcastEv
        (OutMsg.interimResult username (countValid start room.duration qoff ts))) ∧
    ((resultOutcome room username start n qoff ts).1.start_time = some start →
      dictLookup (resultOutcome room username start n qoff ts).1.results username =
        some { reported := n, validated := countValid start room.duration qoff ts,
               offset := qoff }) := by
  have hseq : convSeq (jgetD fields "timestamps" (JVal.jarr [])) = Except.ok ts := by
    rw [h4]
    exact h3
  refine ⟨?_, ?_, resultOutcome_head room username start n qoff ts, ?_⟩
  · rw [handle_message_typed t room username fields _ hty]
    exact handle_result_ok room username fields start n qoff ts hs h1 h2 hseq
  · unfold countValid
    rw [List.countP_eq_length_filter]
    have hfun : (fun x : ℚ =>
        decide (start ≤ x + qoff) && decide (x + qoff ≤ start + room.duration)) =
        (fun x : ℚ => decide (start ≤ x + qoff ∧ x + qoff ≤ start + room.duration)) := by
      funext x
      rw [Bool.decide_and]
    rw [hfun]
  · simp only [resultOutcome]
    split
    · intro h
      exfalso
      simp [finalize_room] at h
    · intro _
      exact dictLookup_dictSet_self _ _ _

/-- A two-member room with an active round `[100, 115]`, used to witness C2. -/
def c2Room : Room :=
  { clients := ["alice", "bob"], results := [], start_time := some 100, duration := 15,
    last_ranking := none }

/-- The C2 witness message: offset 10 and local timestamps hitting the start
bound (90 + 10 = 100), the end bound (105 + 10 = 115) and one tenth beyond
the end bound (105.1 + 10 = 115.1). -/
def c2Msg : List (String × JVal) :=
  [("type", JVal.jstr "result"), ("count", JVal.jnum 3), ("offset", JVal.jnum 10),
   ("timestamps", JVal.jarr [JVal.jnum 90, JVal.jnum 105, JVal.jnum (1051/10)])]

/-- Witness for C2: both window bounds count as valid, one epsilon beyond the
end does not, so exactly 2 of the 3 timestamps validate. -/
theorem C2_validated_count_witness :
    (handle_message 0 c2Room "alice" (some (JVal.jobj c2Msg)) =
      Except.ok (resultOutcome c2Room "alice" 100 3 10 [90, 105, 1051/10]) ∧
     countValid 100 c2Room.duration 10 [90, 105, 1051/10] =
      (([90, 105, 1051/10] : List ℚ).filter fun x =>
        decide (100 ≤ x + 10 ∧ x + 10 ≤ 100 + c2Room.duration)).length ∧
     (resultOutcome c2Room "alice" 100 3 10 [90, 105, 1051/10]).2.head? =
      some (Event.broadcastEv (OutMsg.interimResult "alice"
        (countValid 100 c2Room.duration 10 [90, 105, 1051/10]))) ∧
     ((resultOutcome c2Room "alice" 100 3 10 [90, 105, 1051/10]).1.start_time = some 100 →
      dictLookup (resultOutcome c2Room "alice" 100 3 10 [90, 105, 1051/10]).1.results
          "alice" =
        some { reported := 3, validated := countValid 100 c2Room.duration 10 [90, 105, 1051/10],
               offset := 10 })) ∧
    countValid 100 c2Room.duration 10 [90, 105, 1051/10] = 2 :=
  ⟨C2_validated_count 0 c2Room "alice" c2Msg 100
      [JVal.jnum 90, JVal.jnum 105, JVal.jnum (1051/10)] 3 10 [90, 105, 1051/10]
      rfl rfl rfl rfl rfl rfl,
   by
    simp [countValid, List.countP_cons, c2Room]
    norm_num⟩

/-- C9 (implicit): for every accepted result submission the stored validated
count lies between 0 and the length of the submitted timestamps list, and the
untrusted self-reported count has no influence on it: substituting any other
count value leaves the broadcast validated count unchanged. -/
theorem C9_validated_bounded (t : ℚ) (room : Room) (username : String)
    (fields : List (String × JVal)) (start : ℚ) (tsj : List JVal)
    (n : Int) (qoff : ℚ) (ts : List ℚ)
    (hty : jget fields "type" = some (JVal.jstr "result"))
    (hs : room.start_time = some start)
    (h1 : pyInt (jgetD fields "count" (JVal.jnum 0)) = Except.ok n)
    (h2 : pyFloat (jgetD fields "offset" (JVal.jnum 0)) = Except.ok qoff)
    (h4 : jgetD fields "timestamps" (JVal.jarr []) = JVal.jarr tsj)
    (h3 : convFloats tsj = Except.ok ts) :
    handle_message t room username (some (JVal.jobj fields)) =
      Except.ok (resultOutcome room username start n qoff ts) ∧
    0 ≤ countValid start room.duration qoff ts ∧
    countValid start room.duration qoff ts ≤ tsj.length ∧
    (∀ n2 : Int, (resultOutcome room username start n2 qoff ts).2.head? =
      some (Event.broadcastEv
        (OutMsg.interimResult username (countValid start room.duration qoff ts)))) := by
  have hseq : convSeq (jgetD fields "timestamps" (JVal.jarr [])) = Except.ok ts := by
    rw [h4]
    exact h3
  refine ⟨?_, Nat.zero_le _, ?_,
    fun n2 => resultOutcome_head room username start n2 qoff ts⟩
  · rw [handle_message_typed t room username fields _ hty]
    exact handle_result_ok room username fields start n qoff ts hs h1 h2 hseq
  · have hlen : ts.length = tsj.length := convFloats_length h3
    rw [← hlen]
    unfold countValid
    exact List.countP_le_length _

/-- A two-member room with an active round `[100, 115]`, used to witness C9. -/
def c9Room : Room :=
  { clients := ["alice", "bob"], results := [], start_time := some 100, duration := 15,
    last_ranking := none }

/-- The C9 witness message: a wildly inflated self-reported count of 999 with
one in-window and one out-of-window timestamp. -/
def c9Msg : List (String × JVal) :=
  [("type", JVal.jstr "result"), ("count", JVal.jnum 999), ("offset", JVal.jnum 0),
   ("timestamps", JVal.jarr [JVal.jnum 50, JVal.jnum 101])]

/-- Witness for C9: the validated count is 1 ≤ 2 despite the reported 999. -/
theorem C9_validated_bounded_witness :
    (handle_message 0 c9Room "alice" (some (JVal.jobj c9Msg)) =
      Except.ok (resultOutcome c9Room "alice" 100 999 0 [50, 101]) ∧
     0 ≤ countValid 100 c9Room.duration 0 [50, 101] ∧
     countValid 100 c9Room.duration 0 [50, 101] ≤
      ([JVal.jnum 50, JVal.jnum 101] : List JVal).length ∧
     (∀ n2 : Int, (resultOutcome c9Room "alice" 100 n2 0 [50, 101]).2.head? =
      some (Event.broadcastEv (OutMsg.interimResult "alice"
        (countValid 100 c9Room.duration 0 [50, 101]))))) ∧
    countValid 100 c9Room.duration 0 [50, 101] = 1 :=
  ⟨C9_validated_bounded 0 c9Room "alice" c9Msg 100 [JVal.jnum 50, JVal.jnum 101]
      999 0 [50, 101] rfl rfl rfl rfl rfl rfl,
   by
    simp [countValid, List.countP_cons, c9Room]
    norm_num⟩

/-- C10 (implicit): a result message carrying none of `count`, `offset`,
`timestamps` is not rejected: the fields default to `0`, `0.0` and `[]`, the
submission succeeds storing the zero record with validated count 0, and it
still counts toward the all-members-submitted early-finalization condition. -/
theorem C10_defaults (t : ℚ) (room : Room) (username : String) (start : ℚ)
    (hs : room.start_time = some start) :
    handle_message t room username (some (JVal.jobj [("type", JVal.jstr "result")])) =
      Except.ok (resultOutcome room username start 0 0 []) ∧
    (resultOutcome room username start 0 0 []).2.head? =
      some (Event.broadcastEv (OutMsg.interimResult username 0)) ∧
    ((resultOutcome room username start 0 0 []).1.start_time = some start →
      dictLookup (resultOutcome room username start 0 0 []).1.results username =
        some zeroRes) ∧
    ((dictSet room.results username zeroRes).length = room.clients.length →
      ∃ rk, (resultOutcome room username start 0 0 []).2 =
        [Event.broadcastEv (OutMsg.interimResult username 0),
         Event.broadcastEv (OutMsg.roundEnd rk)]) := by
  refine ⟨?_, ?_, ?_, ?_⟩
  · rw [handle_message_typed t room username [("type", JVal.jstr "result")] _ rfl]
    exact handle_result_ok room username [("type", JVal.jstr "result")] start 0 0 []
      hs rfl rfl rfl
  · exact resultOutcome_head room username start 0 0 []
  · simp only [resultOutcome]
    split
    · intro h
      exfalso
      simp [finalize_room] at h
    · intro _
      exact dictLookup_dictSet_self _ _ _
  · intro h
    have hcv : countValid start room.duration 0 ([] : List ℚ) = 0 := rfl
    simp only [resultOutcome, hcv]
    split
    · exact ⟨_, rfl⟩
    · rename_i hfalse
      exfalso
      have h2 : (dictSet room.results username
          { reported := 0, validated := 0, offset := 0 }).length = room.clients.length := h
      simp [h2] at hfalse

/-- A room where "bob" has already submitted, used to witness C10: the bare
result message from "alice" completes the member set and finalizes early. -/
def c10Room : Room :=
  { clients := ["alice", "bob"], results := [("bob", ⟨7, 1, 0⟩)], start_time := some 100,
    duration := 15, last_ranking := none }

/-- Witness for C10: a result message with only its `type` field, sent to a
room where everyone else has submitted, succeeds with the zero record and
triggers early finalization. -/
theorem C10_defaults_witness :
    (handle_message 0 c10Room "alice" (some (JVal.jobj [("type", JVal.jstr "result")])) =
      Except.ok (resultOutcome c10Room "alice" 100 0 0 []) ∧
     (resultOutcome c10Room "alice" 100 0 0 []).2.head? =
      some (Event.broadcastEv (OutMsg.interimResult "alice" 0)) ∧
     ((resultOutcome c10Room "alice" 100 0 0 []).1.start_time = some 100 →
      dictLookup (resultOutcome c10Room "alice" 100 0 0 []).1.results "alice" =
        some zeroRes) ∧
     ((dictSet c10Room.results "alice" zeroRes).length = c10Room.clients.length →
      ∃ rk, (resultOutcome c10Room "alice" 100 0 0 []).2 =
        [Event.broadcastEv (OutMsg.interimResult "alice" 0),
         Event.broadcastEv (OutMsg.roundEnd rk)])) ∧
    (∃ rk, (resultOutcome c10Room "alice" 100 0 0 []).2 =
      [Event.broadcastEv (OutMsg.interimResult "alice" 0),
       Event.broadcastEv (OutMsg.roundEnd rk)]) :=
  ⟨C10_defaults 0 c10Room "alice" 100 rfl,
   (C10_defaults 0 c10Room "alice" 100 rfl).2.2.2 (by decide)⟩

/-- How many `round_end` broadcasts a list of events carries. -/
def roundEndCount (evs : List Event) : Nat :=
  evs.countP fun e =>
    match e with
    | Event.broadcastEv (OutMsg.roundEnd _) => true
    | _ => false

/-- A registry with one room, one member and an active round, used to show
that `finalize_round` is not idempotent. -/
def c1Rooms : List (String × Room) :=
  [("r", { clients := ["alice"], results := [("alice", ⟨5, 3, 0⟩)],
           start_time := some 100, duration := 15, last_ranking := none })]

/-- C1: the claim fails on the code.  `finalize_round` only returns early
when the room is missing and never checks whether the round was already
finalized, so calling it twice on the same round emits TWO `round_end`
broadcasts (the claim requires exactly one), and the second call changes the
room again (it overwrites `last_ranking` with an all-zero ranking), even
though `start_time` is indeed left cleared both times. -/
theorem C1_finalize_not_idempotent :
    roundEndCount ((finalize_round c1Rooms "r").2 ++
        (finalize_round (finalize_round c1Rooms "r").1 "r").2) = 2 ∧
    (finalize_round (finalize_round c1Rooms "r").1 "r").1 ≠ (finalize_round c1Rooms "r").1 ∧
    ((dictLookup (finalize_round c1Rooms "r").1 "r").map Room.start_time = some none ∧
     (dictLookup (finalize_round (finalize_round c1Rooms "r").1 "r").1 "r").map
        Room.start_time = some none) := by
  decide

/-- A one-member room with no active round, used for the C3 counterexample. -/
def c3Room : Room :=
  { clients := ["alice"], results := [], start_time := none, duration := 15,
    last_ranking := none }

/-- C3 counterexample: an unparsable payload is NOT rejected per-message.
`json.loads` raises and only `WebSocketDisconnect` is caught, so the per-client
loop terminates exceptionally: the follow-up `join` message is never processed
(no `room_info` reply appears among the events), no disconnect cleanup runs,
and the room is left exactly as it was, dead client entry included. -/
theorem C3_counterexample :
    client_loop c3Room "alice"
        [(0, ClientInput.recv none),
         (1, ClientInput.recv (some (JVal.jobj [("type", JVal.jstr "join")])))] =
      (c3Room, [], LoopStatus.crashed PyExc.jsonDecodeError) ∧
    "alice" ∈ c3Room.clients := by
  decide

/-- C3 amended: a malformed message is not handled per-message.  An
unparsable payload raises an uncaught exception that terminates the client's
receive loop with no cleanup and no events, leaving the room (and hence the
client's membership and the round state) exactly unchanged; only a payload
that parses to an object with an unrecognized `type` is ignored with the
loop continuing. -/
theorem C3_malformed_crashes_loop :
    (∀ (room : Room) (username : String) (t : ℚ) (rest : List (ℚ × ClientInput)),
      client_loop room username ((t, ClientInput.recv none) :: rest) =
        (room, [], LoopStatus.crashed PyExc.jsonDecodeError)) ∧
    (∀ (room : Room) (username : String) (t : ℚ) (rest : List (ℚ × ClientInput))
        (fields : List (String × JVal)), jget fields "type" = none →
      client_loop room username
          ((t, ClientInput.recv (some (JVal.jobj fields))) :: rest) =
        client_loop room username rest) := by
  constructor
  · intro room username t rest
    rfl
  · intro room username t rest fields h
    simp [client_loop, handle_message, h, typIs]

/-- Witness for the amended C3: the crash on an unparsable payload and the
skip of an object without a `type` field, at concrete inputs. -/
theorem C3_malformed_crashes_loop_witness :
    client_loop c3Room "bob" [((3 : ℚ), ClientInput.recv none)] =
      (c3Room, [], LoopStatus.crashed PyExc.jsonDecodeError) ∧
    client_loop c3Room "alice" [((2 : ℚ), ClientInput.recv (some (JVal.jobj [("x", JVal.jnum 1)])))] =
      client_loop c3Room "alice" [] :=
  ⟨C3_malformed_crashes_loop.1 c3Room "bob" 3 [],
   C3_malformed_crashes_loop.2 c3Room "alice" 2 [] [("x", JVal.jnum 1)] rfl⟩

/-- C6: the ranking built at finalization is the stable sort of all result
entries (after zero-completion) by validated descending then reported
descending: it is sorted under that order, a permutation of the entries,
stable (entries tied on both keys keep their insertion order), and
deterministic (any room with the same members and results produces the
identical broadcast). -/
theorem C6_ranking_sorted_stable (room : Room) :
    (finalize_room room).2 =
      [Event.broadcastEv
        (OutMsg.roundEnd (rankOf (synthMissing room.clients room.results)))] ∧
    List.Sorted rankRel (rankOf (synthMissing room.clients room.results)) ∧
    (rankOf (synthMissing room.clients room.results)).Perm
      ((synthMissing room.clients room.results).map toRankEntry) ∧
    (∀ a b : RankEntry, a.validated = b.validated → a.reported = b.reported →
      [a, b].Sublist ((synthMissing room.clients room.results).map toRankEntry) →
      [a, b].Sublist (rankOf (synthMissing room.clients room.results))) ∧
    (∀ room2 : Room, room2.clients = room.clients → room2.results = room.results →
      (finalize_room room2).2 = (finalize_room room).2) := by
  refine ⟨rfl, ?_, ?_, ?_, ?_⟩
  · exact List.sorted_insertionSort rankRel _
  · exact List.perm_insertionSort rankRel _
  · intro a b hv hr hsub
    exact List.pair_sublist_insertionSort (Or.inr ⟨hv, le_of_eq hr.symm⟩) hsub
  · intro room2 h1 h2
    simp only [finalize_room]
    rw [h1, h2]

/-- A room with a two-way tie ("alice" and "bob" both have validated 2,
reported 5) used to witness C6's stability. -/
def c6Room : Room :=
  { clients := [],
    results := [("alice", ⟨5, 2, 0⟩), ("bob", ⟨5, 2, 1⟩), ("carol", ⟨1, 9, 0⟩)],
    start_time := some 100, duration := 15, last_ranking := none }

/-- Witness for C6: the tied pair keeps its insertion order in the broadcast
ranking. -/
theorem C6_ranking_sorted_stable_witness :
    (finalize_room c6Room).2 =
      [Event.broadcastEv
        (OutMsg.roundEnd (rankOf (synthMissing c6Room.clients c6Room.results)))] ∧
    [({ user := "alice", validated := 2, reported := 5 } : RankEntry),
     { user := "bob", validated := 2, reported := 5 }].Sublist
      (rankOf (synthMissing c6Room.clients c6Room.results)) :=
  ⟨(C6_ranking_sorted_stable c6Room).1,
   (C6_ranking_sorted_stable c6Room).2.2.2.1
     { user := "alice", validated := 2, reported := 5 }
     { user := "bob", validated := 2, reported := 5 } rfl rfl (by decide)⟩

/-- C8: finalization of an existing room synthesizes the zero record
`{reported: 0, validated: 0, offset: 0.0}` for every member without a results
entry, includes every current member in the broadcast ranking, stores that
ranking, and afterwards clears `start_time` and resets `results`. -/
theorem C8_finalize_completes (room r2 : Room) (evs : List Event)
    (h : finalize_room room = (r2, evs)) :
    r2.start_time = none ∧ r2.results = [] ∧
    ∃ rk, evs = [Event.broadcastEv (OutMsg.roundEnd rk)] ∧
      r2.last_ranking = some rk ∧
      (∀ u ∈ room.clients, ∃ e ∈ rk, e.user = u) ∧
      (∀ u ∈ room.clients, dictLookup room.results u = none →
        dictLookup (synthMissing room.clients room.results) u = some zeroRes ∧
        ({ user := u, validated := 0, reported := 0 } : RankEntry) ∈ rk) := by
  have hA : r2 = (finalize_room room).1 := by rw [h]
  have hB : evs = (finalize_room room).2 := by rw [h]
  subst hA
  subst hB
  refine ⟨rfl, rfl, rankOf (synthMissing room.clients room.results), rfl, rfl, ?_, ?_⟩
  · intro u hu
    by_cases hres : dictLookup room.results u = none
    · have hz : dictLookup (synthMissing room.clients room.results) u = some zeroRes :=
        synthMissing_zero hu hres
      refine ⟨toRankEntry (u, zeroRes), ?_, rfl⟩
      exact (List.perm_insertionSort rankRel _).mem_iff.mpr
        (List.mem_map_of_mem toRankEntry (dictLookup_mem hz))
    · obtain ⟨v, hv⟩ : ∃ v, dictLookup room.results u = some v := by
        cases hl : dictLookup room.results u with
        | none => exact absurd hl hres
        | some v => exact ⟨v, rfl⟩
      have hp : dictLookup (synthMissing room.clients room.results) u = some v :=
        synthMissing_preserves hv
      refine ⟨toRankEntry (u, v), ?_, rfl⟩
      exact (List.perm_insertionSort rankRel _).mem_iff.mpr
        (List.mem_map_of_mem toRankEntry (dictLookup_mem hp))
  · intro u hu hres
    have hz : dictLookup (synthMissing room.clients room.results) u = some zeroRes :=
      synthMissing_zero hu hres
    refine ⟨hz, ?_⟩
    exact (List.perm_insertionSort rankRel _).mem_iff.mpr
      (List.mem_map_of_mem toRankEntry (dictLookup_mem hz))

/-- A room where "carol" never submitted, used to witness C8. -/
def c8Room : Room :=
  { clients := ["alice", "carol"], results := [("alice", ⟨4, 2, 1⟩)],
    start_time := some 100, duration := 15, last_ranking := none }

/-- Witness for C8 at a room with one missing submitter. -/
theorem C8_finalize_completes_witness :
    (finalize_room c8Room).1.start_time = none ∧
    (finalize_room c8Room).1.results = [] ∧
    ∃ rk, (finalize_room c8Room).2 = [Event.broadcastEv (OutMsg.roundEnd rk)] ∧
      (finalize_room c8Room).1.last_ranking = some rk ∧
      (∀ u ∈ c8Room.clients, ∃ e ∈ rk, e.user = u) ∧
      (∀ u ∈ c8Room.clients, dictLookup c8Room.results u = none →
        dictLookup (synthMissing c8Room.clients c8Room.results) u = some zeroRes ∧
        ({ user := u, validated := 0, reported := 0 } : RankEntry) ∈ rk) :=
  C8_finalize_completes c8Room (finalize_room c8Room).1 (finalize_room c8Room).2 rfl

lemma invc4_connect (room : Room) (username : String) (h : InvC4 room) :
    InvC4 (handle_connect room username).1 := by
  unfold InvC4 resKeys at h ⊢
  simp only [handle_connect]
  by_cases hany : (room.clients.any fun u2 => u2 == username) = true
  · rw [if_pos hany]
    exact h
  · rw [if_neg hany]
    obtain ⟨hc, hk, hsub⟩ := h
    have hnot : username ∉ room.clients := by
      intro hmem
      apply hany
      rw [List.any_eq_true]
      exact ⟨username, hmem, by simp⟩
    refine ⟨?_, hk, ?_⟩
    · simp [List.nodup_append, hc, hnot]
    · intro u hu
      exact List.mem_append.mpr (Or.inl (hsub u hu))

lemma invc4_disconnect (room : Room) (username : String) (h : InvC4 room) :
    InvC4 (handle_disconnect room username).1 := by
  obtain ⟨hc, hk, hsub⟩ := h
  unfold InvC4 resKeys
  simp only [handle_disconnect]
  refine ⟨hc.filter _, ?_, ?_⟩
  · exact List.Nodup.sublist ((List.filter_sublist _).map Prod.fst) hk
  · intro u hu
    obtain ⟨p, hp, hpu⟩ := List.mem_map.mp hu
    rw [List.mem_filter] at hp
    obtain ⟨hpmem, hpne⟩ := hp
    rw [List.mem_filter]
    constructor
    · apply hsub
      exact hpu ▸ List.mem_map_of_mem Prod.fst hpmem
    · rw [← hpu]
      exact hpne

lemma invc4_resultOutcome (room : Room) (username : String) (start : ℚ) (n : Int)
    (qoff : ℚ) (ts : List ℚ) (h : InvC4 room) (hu : username ∈ room.clients) :
    InvC4 (resultOutcome room username start n qoff ts).1 := by
  unfold InvC4 resKeys at h
  obtain ⟨hc, hk, hsub⟩ := h
  simp only [resultOutcome]
  split
  · simp [finalize_room, InvC4, resKeys, hc]
  · unfold InvC4 resKeys
    simp only []
    have hkeys := dictKeys_dictSet room.results username
      { reported := n, validated := countValid start room.duration qoff ts, offset := qoff }
    by_cases hmem : (room.results.any fun p => p.1 == username) = true
    · refine ⟨hc, ?_, ?_⟩
      · rw [hkeys, if_pos hmem]
        exact hk
      · intro u hu2
        rw [hkeys, if_pos hmem] at hu2
        exact hsub u hu2
    · have hnot := not_mem_keys_of_any_eq_false room.results username
        (Bool.not_eq_true _ |>.mp hmem)
      refine ⟨hc, ?_, ?_⟩
      · rw [hkeys, if_neg hmem]
        simp [List.nodup_append, hk, hnot]
      · intro u hu2
        rw [hkeys, if_neg hmem] at hu2
        rcases List.mem_append.mp hu2 with h2 | h2
        · exact hsub u h2
        · rw [List.mem_singleton] at h2
          rw [h2]
          exact hu

lemma invc4_message (t : ℚ) (room : Room) (username : String) (inbound : Option JVal)
    (r2 : Room) (evs : List Event) (h : InvC4 room) (hu : username ∈ room.clients)
    (hm : handle_message t room username inbound = Except.ok (r2, evs)) :
    InvC4 r2 := by
  cases inbound with
  | none => simp [handle_message] at hm
  | some v =>
    cases v with
    | jnull => simp [handle_message] at hm
    | jbool b => simp [handle_message] at hm
    | jnum q => simp [handle_message] at hm
    | jstr s => simp [handle_message] at hm
    | jarr xs => simp [handle_message] at hm
    | jobj fields =>
      simp only [handle_message] at hm
      split_ifs at hm with h1 h2 h3 h4
      · simp only [Except.ok.injEq, Prod.mk.injEq] at hm
        rw [← hm.1]
        exact h
      · simp only [Except.ok.injEq, Prod.mk.injEq] at hm
        rw [← hm.1]
        exact h
      · simp only [Except.ok.injEq, Prod.mk.injEq] at hm
        rw [← hm.1]
        exact ⟨h.1, by simp [resKeys], by simp [resKeys]⟩
      · -- the "result" branch
        cases hst : room.start_time with
        | none =>
          simp only [handle_result, hst] at hm
          simp only [Except.ok.injEq, Prod.mk.injEq] at hm
          rw [← hm.1]
          exact h
        | some start =>
          simp only [handle_result, hst] at hm
          cases hpi : pyInt (jgetD fields "count" (JVal.jnum 0)) with
          | error e => rw [hpi] at hm; cases hm
          | ok n =>
            rw [hpi] at hm
            cases hpf : pyFloat (jgetD fields "offset" (JVal.jnum 0)) with
            | error e => rw [hpf] at hm; cases hm
            | ok qoff =>
              rw [hpf] at hm
              cases hcs : convSeq (jgetD fields "timestamps" (JVal.jarr [])) with
              | error e => rw [hcs] at hm; cases hm
              | ok ts =>
                rw [hcs] at hm
                simp only [Except.ok.injEq] at hm
                have hfst : (resultOutcome room username start n qoff ts).1 = r2 :=
                  congrArg Prod.fst hm
                rw [← hfst]
                exact invc4_resultOutcome room username start n qoff ts h hu
      · simp only [Except.ok.injEq, Prod.mk.injEq] at hm
        rw [← hm.1]
        exact h

/-- C4: the invariant "every result key is a currently connected member"
(hence `len(results) ≤ len(members)`) holds at every observation point and is
preserved by every operation: connection open (join), disconnect, and every
handled message (`request_start`, result submission, and the rest), where the
submitter of a message is a connected member — the spec's "one live channel
per username" invariant. -/
theorem C4_results_le_members (room : Room) (username : String) (hwf : InvC4 room) :
    room.results.length ≤ room.clients.length ∧
    (InvC4 (handle_connect room username).1 ∧
      (handle_connect room username).1.results.length ≤
        (handle_connect room username).1.clients.length) ∧
    (InvC4 (handle_disconnect room username).1 ∧
      (handle_disconnect room username).1.results.length ≤
        (handle_disconnect room username).1.clients.length) ∧
    ∀ (t : ℚ) (inbound : Option JVal) (r2 : Room) (evs : List Event),
      username ∈ room.clients →
      handle_message t room username inbound = Except.ok (r2, evs) →
      InvC4 r2 ∧ r2.results.length ≤ r2.clients.length := by
  refine ⟨invc4_length room hwf,
    ⟨invc4_connect room username hwf, invc4_length _ (invc4_connect room username hwf)⟩,
    ⟨invc4_disconnect room username hwf,
     invc4_length _ (invc4_disconnect room username hwf)⟩, ?_⟩
  intro t inbound r2 evs hu hm
  have h2 := invc4_message t room username inbound r2 evs hwf hu hm
  exact ⟨h2, invc4_length _ h2⟩

/-- A well-formed two-member room with one pending result, witnessing C4. -/
def c4Room : Room :=
  { clients := ["alice", "bob"], results := [("alice", ⟨2, 1, 0⟩)], start_time := some 100,
    duration := 15, last_ranking := none }

/-- Witness for C4: the invariant holds on `c4Room` and is preserved by a
concrete result submission from "bob" (which triggers early finalization). -/
theorem C4_results_le_members_witness :
    InvC4 c4Room ∧
    c4Room.results.length ≤ c4Room.clients.length ∧
    (InvC4 (resultOutcome c4Room "bob" 100 0 0 []).1 ∧
      (resultOutcome c4Room "bob" 100 0 0 []).1.results.length ≤
        (resultOutcome c4Room "bob" 100 0 0 []).1.clients.length) :=
  ⟨by decide,
   (C4_results_le_members c4Room "bob" (by decide)).1,
   (C4_results_le_members c4Room "bob" (by decide)).2.2.2 0
     (some (JVal.jobj [("type", JVal.jstr "result")]))
     (resultOutcome c4Room "bob" 100 0 0 []).1
     (resultOutcome c4Room "bob" 100 0 0 []).2
     (by decide) rfl⟩
